import Mathlib

/-!
Verification of the Frame codec of `frog` (file `src/index.tsx`).

The development shallowly embeds three parts of the source file:

* the frame decoder `htmlToFrame` (lines 507-612): the decoder works on the
  list of `<meta>` elements found in the document, each contributing its
  `property` and `content` attributes (`getAttribute` returns `null` for a
  missing attribute, modelled as `Option String`).  HTML parsing itself is
  performed by the external `happy-dom` library and is not part of the
  embedded code: the embedding starts from the meta-tag list, which is the
  decoder's real input.
* the intent encoder `parseIntents` / `parseIntent` (lines 463-491) together
  with the `Button` and `TextInput` components (lines 261-279).
* the context (de)serialization helper `deserializeJson` (lines 499-501);
  the JavaScript builtins `decodeURIComponent` and `JSON.parse` it calls are
  modelled from their ECMAScript semantics as `Except`-returning functions,
  since in JavaScript both throw on malformed input.
-/

namespace Frog

/-! ### Meta tags and the decoded `Frame` value -/

/-- One `<meta>` element as the decoder sees it: its `property` and `content`
attributes, each possibly absent (`getAttribute` returning `null`). -/
structure MetaTag where
  property : Option String
  content : Option String
deriving DecidableEq, Repr

/-- Decoded button (`FrameButton` of `types.ts`): `index`, display `title`
and action `type` (a plain string in the embedding). -/
structure FrameButton where
  index : Nat
  title : String
  type : String
deriving DecidableEq, Repr

/-- The decoder's `input` field: `\x7b text: placeholder \x7d`. -/
structure FrameInput where
  text : String
deriving DecidableEq, Repr

/-- The six fixed recognized property names (`validPropertyNames`,
lines 515-522) modelled as a record of optional stored contents; the source
stores them in a partial record keyed by exactly these six names. -/
structure Props6 where
  fcFrame : Option String := none
  fcFrameImage : Option String := none
  fcFrameInputText : Option String := none
  fcFramePostUrl : Option String := none
  ogImage : Option String := none
  ogTitle : Option String := none
deriving DecidableEq, Repr

/-- The members of `validPropertyNames` (lines 515-522). -/
def validNamesList : List String :=
  ["fc:frame", "fc:frame:image", "fc:frame:input:text", "fc:frame:post_url",
   "og:image", "og:title"]

/-- `properties[property] = content` (line 541) dispatched over the six
recognized names. -/
def setProp (ps : Props6) (name content : String) : Props6 :=
  if name = "fc:frame" then { ps with fcFrame := some content }
  else if name = "fc:frame:image" then { ps with fcFrameImage := some content }
  else if name = "fc:frame:input:text" then { ps with fcFrameInputText := some content }
  else if name = "fc:frame:post_url" then { ps with fcFramePostUrl := some content }
  else if name = "og:image" then { ps with ogImage := some content }
  else if name = "og:title" then { ps with ogTitle := some content }
  else ps

/-- `pat` matches at the end of `s`.  The source's button pattern
(line 524) is anchored with a final dollar and has no start anchor, so a
property matches the regex exactly when one of the twelve concrete
alternatives is a suffix of it. -/
def strEndsWith (s pat : String) : Bool :=
  pat.data.isSuffixOf s.data

/-- The twelve concrete strings the regex
`fc:frame:button:(1|2|3|4)(?::(action|target))?` (with final anchor) can
match, paired with the values of its two capture groups.  No string has two
of them as suffixes (the plain forms end in a digit, the suffixed forms in
`action`/`target`, and all forms of one shape have the same length), so
matching a property against this list is equivalent to the regex test and
capture of lines 524 and 542-549. -/
def buttonPatterns : List (String × Nat × Option String) :=
  [("fc:frame:button:1", (1, none)), ("fc:frame:button:2", (2, none)),
   ("fc:frame:button:3", (3, none)), ("fc:frame:button:4", (4, none)),
   ("fc:frame:button:1:action", (1, some "action")),
   ("fc:frame:button:2:action", (2, some "action")),
   ("fc:frame:button:3:action", (3, some "action")),
   ("fc:frame:button:4:action", (4, some "action")),
   ("fc:frame:button:1:target", (1, some "target")),
   ("fc:frame:button:2:target", (2, some "target")),
   ("fc:frame:button:3:target", (3, some "target")),
   ("fc:frame:button:4:target", (4, some "target"))]

/-- Result of `buttonRegex.test` plus the captures of `property.match`
(lines 542-549): the button index and the optional `action`/`target`
suffix. -/
def buttonMatch (p : String) : Option (Nat × Option String) :=
  (buttonPatterns.find? (fun e => strEndsWith p e.1)).map (fun e => e.2)

/-- How the scanning loop (lines 534-564) treats one meta tag. -/
inductive TagClass where
  | skip : TagClass
  | propSet (name content : String) : TagClass
  | action (index : Nat) (content : String) : TagClass
  | plain (index : Nat) (content : String) : TagClass
deriving DecidableEq, Repr

/-- The loop's dispatch for one tag: skip tags without a `property`
(line 538), store recognized names (line 541), route suffixed button
matches to the action map and plain ones to the ordering logic and button
map (lines 542-563).  The content defaults to the empty string
(line 540). -/
def classifyTag (t : MetaTag) : TagClass :=
  match t.property with
  | none => .skip
  | some p =>
    let content := t.content.getD ""
    if p ∈ validNamesList then .propSet p content
    else
      match buttonMatch p with
      | none => .skip
      | some (i, some _) => .action i content
      | some (i, none) => .plain i content

/-- The ordering-validation state of the scan: `currentButtonIndex`,
the two sticky flags and `invalidButtons` (lines 526-531). -/
structure BState where
  currentButtonIndex : Nat
  buttonsAreMissing : Bool
  buttonsAreOutOfOrder : Bool
  invalidButtons : List Nat
deriving DecidableEq, Repr

def initBState : BState := ⟨0, false, false, []⟩

/-- Effect of one plain button tag with index `index` on the ordering
state (lines 553-558):
if `currentButtonIndex >= index` the out-of-order flag is set; if
`currentButtonIndex + 1 = index` the current index advances, otherwise the
missing flag is set; if either flag is now set the index is appended to
`invalidButtons`. -/
def bstep (s : BState) (index : Nat) : BState :=
  let ooo := s.buttonsAreOutOfOrder || decide (s.currentButtonIndex ≥ index)
  let adv := s.currentButtonIndex + 1 = index
  let cbi := if adv then index else s.currentButtonIndex
  let missing := if adv then s.buttonsAreMissing else true
  let invalid := if ooo || missing then s.invalidButtons ++ [index] else s.invalidButtons
  ⟨cbi, missing, ooo, invalid⟩

/-- The entries of `buttonMap`: `\x7b index, title \x7d` (line 561). -/
structure ButtonEntry where
  index : Nat
  title : String
deriving DecidableEq, Repr

/-- JavaScript `Map.set`: an existing key keeps its position and gets the
new value, a new key is appended; iteration is in insertion order. -/
def mapSet {β : Type} (m : List (Nat × β)) (k : Nat) (v : β) : List (Nat × β) :=
  if m.any (fun e => e.1 == k) then
    m.map (fun e => if e.1 == k then (k, v) else e)
  else m ++ [(k, v)]

/-- JavaScript `Map.get` (`none` when the key is absent). -/
def lookupKey {β : Type} (m : List (Nat × β)) (k : Nat) : Option (Nat × β) :=
  m.find? (fun e => e.1 == k)

/-- The whole mutable state of the scanning loop (lines 526-533). -/
structure ScanState where
  bstate : BState
  buttonMap : List (Nat × ButtonEntry)
  buttonActionMap : List (Nat × String)
  props : Props6
deriving DecidableEq, Repr

def initScanState : ScanState := ⟨initBState, [], [], {}⟩

/-- One iteration of the `for` loop over meta tags (lines 534-564).
The `title` stored for a plain button tag is exactly the content string:
line 540 already defaulted a missing attribute to the empty string, so the
`content ?? index` fallback of line 560 never fires. -/
def scanTag (st : ScanState) (t : MetaTag) : ScanState :=
  match classifyTag t with
  | .skip => st
  | .propSet name content => { st with props := setProp st.props name content }
  | .action i content => { st with buttonActionMap := mapSet st.buttonActionMap i content }
  | .plain i content =>
      { st with bstate := bstep st.bstate i,
                buttonMap := mapSet st.buttonMap i ⟨i, content⟩ }

def scanTags (tags : List MetaTag) : ScanState :=
  tags.foldl scanTag initScanState

/-- The comparator of `buttons.toSorted((a, b) => a.index - b.index)`
(line 580); `toSorted` is stable, as is `List.insertionSort`. -/
def btnLE (a b : FrameButton) : Prop := a.index ≤ b.index

instance : DecidableRel btnLE := fun a b => Nat.decLe a.index b.index

instance : IsTotal FrameButton btnLE := ⟨fun a b => Nat.le_total a.index b.index⟩

instance : IsTrans FrameButton btnLE := ⟨fun _ _ _ h1 h2 => Nat.le_trans h1 h2⟩

/-- Assembly of one final button from a `buttonMap` entry (lines 574-579):
spread the stored entry and attach `type` from `buttonActionMap`, defaulting
to `post`. -/
def entryToButton (actionMap : List (Nat × String)) (e : Nat × ButtonEntry) : FrameButton :=
  ⟨e.2.index, e.2.title, ((lookupKey actionMap e.1).map (fun kv => kv.2)).getD "post"⟩

/-- The `debug` record (lines 599-609): the frame fields are spread into it
together with the diagnostic flags.  `htmlTags` holds the scanned meta
elements (their verbatim serialization in the source). -/
structure FrameDebug where
  buttons : List FrameButton
  imageUrl : String
  input : Option FrameInput
  postUrl : String
  version : String
  buttonsAreOutOfOrder : Bool
  fallbackImageToUrl : Bool
  htmlTags : List MetaTag
  image : String
  inputTextTooLong : Bool
  invalidButtons : List Nat
  postUrlTooLong : Bool
  valid : Bool
deriving DecidableEq, Repr

/-- The decoded frame (lines 596-611). -/
structure Frame where
  buttons : List FrameButton
  imageUrl : String
  input : Option FrameInput
  postUrl : String
  version : String
  debug : FrameDebug
  title : String
deriving DecidableEq, Repr

/-- `htmlToFrame` (lines 507-612) from the meta-tag list onwards: scan all
tags, then assemble the frame.  Note the quirks kept from the source:
`version` falls back to `vNext` only when the `fc:frame` tag is absent
(line 570, nullish coalescing), `input` is absent when the stored text is
empty (line 582, truthiness), `fallbackImageToUrl` is the emptiness of the
stored image URL (line 588), and the reported `buttonsAreOutOfOrder` is the
disjunction of the two raw flags (line 601). -/
def htmlToFrame (metaTags : List MetaTag) : Frame :=
  let st := scanTags metaTags
  let image := st.props.ogImage.getD ""
  let imageUrl := st.props.fcFrameImage.getD ""
  let postUrl := st.props.fcFramePostUrl.getD ""
  let title := st.props.ogTitle.getD ""
  let version := st.props.fcFrame.getD "vNext"
  let buttonsRaw := st.buttonMap.map (entryToButton st.buttonActionMap)
  let buttons := List.insertionSort btnLE buttonsRaw
  let input :=
    match st.props.fcFrameInputText with
    | some s => if s = "" then none else some (⟨s⟩ : FrameInput)
    | none => none
  let fallbackImageToUrl := imageUrl == ""
  let postUrlTooLong := decide (postUrl.length > 2048)
  { buttons := buttons, imageUrl := imageUrl, input := input, postUrl := postUrl,
    version := version,
    debug :=
      { buttons := buttons, imageUrl := imageUrl, input := input, postUrl := postUrl,
        version := version,
        buttonsAreOutOfOrder := st.bstate.buttonsAreMissing || st.bstate.buttonsAreOutOfOrder,
        fallbackImageToUrl := fallbackImageToUrl,
        htmlTags := metaTags,
        image := image,
        inputTextTooLong := false,
        invalidButtons := st.bstate.invalidButtons,
        postUrlTooLong := postUrlTooLong,
        valid := true },
    title := title }

/-! ### Derived views of a tag list used in the statements -/

/-- The indices of the plain (unsuffixed) button tags of a document, in
document order: exactly the tags that reach the ordering-validation logic
of lines 553-558. -/
def plainButtonIndices (tags : List MetaTag) : List Nat :=
  tags.filterMap (fun t =>
    match classifyTag t with
    | .plain i _ => some i
    | _ => none)

/-- The plain button tags of a document as `(index, content)` pairs in
document order. -/
def plainButtons (tags : List MetaTag) : List (Nat × String) :=
  tags.filterMap (fun t =>
    match classifyTag t with
    | .plain i c => some (i, c)
    | _ => none)

/-- The content stored for an `fc:frame:image` tag, if this tag is one. -/
def imgContent (t : MetaTag) : Option String :=
  match t.property with
  | none => none
  | some p => if p = "fc:frame:image" then some (t.content.getD "") else none

/-- There is at least one `fc:frame:image` meta tag in the document. -/
def hasImageTag (tags : List MetaTag) : Bool :=
  tags.any (fun t => t.property == some "fc:frame:image")

/-- The last `some` produced by `f` along the list (later elements win),
the access pattern of both the `properties` record and the JavaScript
maps. -/
def lastSome? {α β : Type} (f : α → Option β) : List α → Option β
  | [] => none
  | a :: l =>
    match lastSome? f l with
    | some b => some b
    | none => f a

/-! ### The intent encoder -/

/-- The props objects flowing through `parseIntent` and into the `Button`
and `TextInput` components, and the attributes of the produced `<meta>`
elements.  Fields absent from a JavaScript object are `none`.  A node's
children are kept outside this record (as in `JSXNode`, whose `props` and
`children` are separate fields); `parseIntent` copies the children into the
props it builds, which is modelled by passing them as a separate argument
to the component. -/
structure CallProps where
  index : Option Nat := none
  value : Option String := none
  placeholder : Option String := none
  property : Option String := none
  content : Option String := none
  dataValue : Option String := none
deriving DecidableEq, Repr

mutual
/-- The `tag` field of a `JSXNode`: the `Button` function (carrying
`__type = 'button'`, line 261), the `TextInput` function
(`__type = 'text-input'`, line 276), any other function component (no
`__type`), or an intrinsic element whose tag is a string. -/
inductive JTag where
  | buttonT : JTag
  | textInputT : JTag
  | fnT (render : CallProps → JNode) : JTag
  | strT (name : String) : JTag

/-- A JSX child / intent node: an element, a string child, or one of the
falsy values `null`, `false`, `undefined` an intent position may hold. -/
inductive JNode where
  | elem (tag : JTag) (props : CallProps) (children : List JNode) : JNode
  | textChild (s : String) : JNode
  | nullN : JNode
  | falseN : JNode
  | undefN : JNode
end

/-- JavaScript stringification of a children array when it lands in an
attribute value (`Array.prototype.toString`: elements joined with commas,
`null`/`undefined` rendering empty). -/
def childPiece : JNode → String
  | .textChild s => s
  | .elem _ _ _ => "[object Object]"
  | .nullN => ""
  | .undefN => ""
  | .falseN => "false"

def childText (children : List JNode) : String :=
  String.intercalate "," (children.map childPiece)

/-- The `Button` component (lines 261-270): a `<meta>` element with
property `fc:frame:button:` followed by the `index` prop (defaulting
to 0), content from `children` and `data-value` from `value`. -/
def Button (props : CallProps) (children : List JNode) : JNode :=
  .elem (.strT "meta")
    { property := some ("fc:frame:button:" ++ toString (props.index.getD 0)),
      content := some (childText children),
      dataValue := props.value } []

/-- The `TextInput` component (lines 276-279): a `<meta>` element with
property `fc:frame:input:text` and content from `placeholder`. -/
def TextInput (props : CallProps) : JNode :=
  .elem (.strT "meta")
    { property := some "fc:frame:input:text", content := props.placeholder } []

/-- `parseIntent` (lines 478-491).  A falsy node is replaced by the no-op
placeholder whose call renders `undefined`.  A `button`-tagged node is
rendered with its props, its children, and `index` overwritten by the
counter, which then advances; a `text-input`-tagged node is rendered with
its props and children and the counter untouched; any other function
component is invoked with the empty props object; a node with a string tag
is returned unchanged.  (A non-empty string in intent position would make
the JavaScript code fail with a TypeError when probing `tag.__type`; the
declared `Intent` type rules it out, and the embedding returns the node
unchanged there.) -/
def parseIntent (node : JNode) (counter : Nat) : JNode × Nat :=
  match node with
  | .nullN => (.undefN, counter)
  | .falseN => (.undefN, counter)
  | .undefN => (.undefN, counter)
  | .textChild s => if s = "" then (.undefN, counter) else (node, counter)
  | .elem .buttonT props children =>
      (Button { props with index := some counter } children, counter + 1)
  | .elem .textInputT props _ => (TextInput props, counter)
  | .elem (.fnT render) _ _ => (render {}, counter)
  | .elem (.strT _) _ _ => (node, counter)

/-- `intents.map((e) => parseIntent(e, counter))` (line 470): the single
counter is threaded through the whole list. -/
def parseIntentList : List JNode → Nat → List JNode × Nat
  | [], c => ([], c)
  | n :: ns, c =>
    let r := parseIntent n c
    let rs := parseIntentList ns r.2
    (r.1 :: rs.1, rs.2)

/-- The encoder's input shape: a single (possibly container) node or an
array of intent nodes. -/
inductive Intents where
  | one (node : JNode) : Intents
  | many (nodes : List JNode) : Intents

/-- The encoder's output shape. -/
inductive ParsedIntents where
  | one (node : JNode) : ParsedIntents
  | many (nodes : List JNode) : ParsedIntents

/-- `typeof child === 'object'` (line 471): element nodes and `null` are
objects, strings, `false` and `undefined` are not. -/
def isObjChild : JNode → Bool
  | .elem _ _ _ => true
  | .nullN => true
  | _ => false

/-- `parseIntents` (lines 463-476): an array is mapped with the shared
counter starting at 1; a single node whose first child is an object has its
children mapped in place; otherwise the node itself is parsed. -/
def parseIntents (intents : Intents) : ParsedIntents :=
  match intents with
  | .many ns => .many (parseIntentList ns 1).1
  | .one n =>
    match n with
    | .elem t props (c0 :: cs) =>
        if isObjChild c0 then .one (.elem t props (parseIntentList (c0 :: cs) 1).1)
        else .one (parseIntent n 1).1
    | _ => .one (parseIntent n 1).1

mutual
/-- The meta tags a rendered node contributes to the document head: a
`<meta>` element contributes its `property`/`content` attributes, any other
element contributes its children's tags, everything else nothing. -/
def nodeMetaTags : JNode → List MetaTag
  | .elem (.strT "meta") props _ => [⟨props.property, props.content⟩]
  | .elem _ _ children => nodesMetaTags children
  | _ => []

def nodesMetaTags : List JNode → List MetaTag
  | [] => []
  | n :: ns => nodeMetaTags n ++ nodesMetaTags ns
end

/-- All meta tags contributed by the encoder's output. -/
def encodedTags : ParsedIntents → List MetaTag
  | .one n => nodeMetaTags n
  | .many ns => nodesMetaTags ns

/-- A `button`-tagged node. -/
def isButtonNode : JNode → Bool
  | .elem .buttonT _ _ => true
  | _ => false

/-- Number of `button`-tagged nodes in a list. -/
def countButtons (ns : List JNode) : Nat :=
  ns.countP isButtonNode

/-- The node list inside the encoder's output. -/
def parsedNodes : ParsedIntents → List JNode
  | .one n => [n]
  | .many ns => ns

/-! ### Context deserialization: `decodeURIComponent` and `JSON.parse`

`deserializeJson` (lines 499-501) is
`JSON.parse(decodeURIComponent(data))` with `data` defaulting to the
two-character string `\x7b\x7d` when the argument is absent.  Neither
builtin call is guarded, so an exception from either propagates to the
caller; the two builtins are modelled from their ECMAScript semantics as
`Except`-valued functions. -/

/-- JSON values.  `JSON.parse` turns number literals into floating-point
numbers; the embedding keeps the lexeme instead, which no claim inspects.
Duplicate object keys are kept in parse order (JavaScript keeps the last
value; no claim inspects objects with duplicate keys). -/
inductive Json where
  | null : Json
  | bool (b : Bool) : Json
  | num (lexeme : String) : Json
  | str (s : String) : Json
  | arr (elements : List Json) : Json
  | obj (fields : List (String × Json)) : Json

def uriMalformed : String := "URIError: URI malformed"

def hexDigit? (c : Char) : Option Nat :=
  if '0' ≤ c ∧ c ≤ '9' then some (c.toNat - 48)
  else if 'A' ≤ c ∧ c ≤ 'F' then some (c.toNat - 55)
  else if 'a' ≤ c ∧ c ≤ 'f' then some (c.toNat - 87)
  else none

/-- First pass of `decodeURIComponent`: each `%` must be followed by two
hex digits and yields a byte, all other characters pass through. -/
def pctTokens : List Char → Except String (List (Sum Char Nat))
  | [] => .ok []
  | '%' :: h1 :: h2 :: rest =>
    match hexDigit? h1, hexDigit? h2 with
    | some a, some b => (pctTokens rest).map (fun ts => .inr (16 * a + b) :: ts)
    | _, _ => .error uriMalformed
  | '%' :: _ => .error uriMalformed
  | c :: rest => (pctTokens rest).map (fun ts => .inl c :: ts)

/-- Allowed range of the first continuation byte of a three-byte UTF-8
sequence with leading byte `b` (excludes overlong forms and surrogates). -/
def cont3ok (b b1 : Nat) : Prop :=
  if b = 224 then 160 ≤ b1 ∧ b1 ≤ 191
  else if b = 237 then 128 ≤ b1 ∧ b1 ≤ 159
  else 128 ≤ b1 ∧ b1 ≤ 191

instance (b b1 : Nat) : Decidable (cont3ok b b1) := by
  unfold cont3ok; infer_instance

/-- Allowed range of the first continuation byte of a four-byte UTF-8
sequence with leading byte `b` (keeps code points in
`0x10000`-`0x10FFFF`). -/
def cont4ok (b b1 : Nat) : Prop :=
  if b = 240 then 144 ≤ b1 ∧ b1 ≤ 191
  else if b = 244 then 128 ≤ b1 ∧ b1 ≤ 143
  else 128 ≤ b1 ∧ b1 ≤ 191

instance (b b1 : Nat) : Decidable (cont4ok b b1) := by
  unfold cont4ok; infer_instance

/-- Second pass of `decodeURIComponent`: bytes produced by escapes must
form valid (shortest-form) UTF-8; a continuation byte must itself come
from an escape.  Anything else raises `URIError`. -/
def assemble : List (Sum Char Nat) → Except String (List Char)
  | [] => .ok []
  | .inl c :: rest => (assemble rest).map (fun l => c :: l)
  | .inr b :: rest =>
    if b < 128 then (assemble rest).map (fun l => Char.ofNat b :: l)
    else if 194 ≤ b ∧ b ≤ 223 then
      match rest with
      | .inr b1 :: rest1 =>
        if 128 ≤ b1 ∧ b1 ≤ 191 then
          (assemble rest1).map (fun l => Char.ofNat ((b - 192) * 64 + (b1 - 128)) :: l)
        else .error uriMalformed
      | _ => .error uriMalformed
    else if 224 ≤ b ∧ b ≤ 239 then
      match rest with
      | .inr b1 :: .inr b2 :: rest2 =>
        if cont3ok b b1 ∧ 128 ≤ b2 ∧ b2 ≤ 191 then
          (assemble rest2).map
            (fun l => Char.ofNat ((b - 224) * 4096 + (b1 - 128) * 64 + (b2 - 128)) :: l)
        else .error uriMalformed
      | _ => .error uriMalformed
    else if 240 ≤ b ∧ b ≤ 244 then
      match rest with
      | .inr b1 :: .inr b2 :: .inr b3 :: rest3 =>
        if cont4ok b b1 ∧ 128 ≤ b2 ∧ b2 ≤ 191 ∧ 128 ≤ b3 ∧ b3 ≤ 191 then
          (assemble rest3).map
            (fun l =>
              Char.ofNat
                ((b - 240) * 262144 + (b1 - 128) * 4096 + (b2 - 128) * 64 + (b3 - 128)) :: l)
        else .error uriMalformed
      | _ => .error uriMalformed
    else .error uriMalformed

/-- `decodeURIComponent`, which throws `URIError` on malformed input. -/
def decodeURIComponentE (s : String) : Except String String :=
  match pctTokens s.data with
  | .error e => .error e
  | .ok ts =>
    match assemble ts with
    | .error e => .error e
    | .ok cs => .ok (String.mk cs)

def jsonWs (c : Char) : Bool :=
  c = ' ' || c = '\t' || c = '\n' || c = '\r'

def skipWs : List Char → List Char
  | [] => []
  | c :: rest => if jsonWs c then skipWs rest else c :: rest

def jsonSyntaxError : String := "SyntaxError: Unexpected token in JSON"

/-- JSON string-literal body after the opening quote: returns the decoded
content and the remainder after the closing quote.  Unescaped control
characters are rejected; `\u` escapes are mapped through `Char.ofNat`
(JavaScript tolerates lone surrogates here; no claim exercises them). -/
def parseJStringAux : List Char → Option (List Char × List Char)
  | [] => none
  | '"' :: rest => some ([], rest)
  | '\\' :: e :: rest =>
    match e with
    | '"' => (parseJStringAux rest).map (fun r => ('"' :: r.1, r.2))
    | '\\' => (parseJStringAux rest).map (fun r => ('\\' :: r.1, r.2))
    | '/' => (parseJStringAux rest).map (fun r => ('/' :: r.1, r.2))
    | 'b' => (parseJStringAux rest).map (fun r => (Char.ofNat 8 :: r.1, r.2))
    | 'f' => (parseJStringAux rest).map (fun r => (Char.ofNat 12 :: r.1, r.2))
    | 'n' => (parseJStringAux rest).map (fun r => ('\n' :: r.1, r.2))
    | 'r' => (parseJStringAux rest).map (fun r => ('\r' :: r.1, r.2))
    | 't' => (parseJStringAux rest).map (fun r => ('\t' :: r.1, r.2))
    | 'u' =>
      match rest with
      | a :: b :: c :: d :: rest2 =>
        match hexDigit? a, hexDigit? b, hexDigit? c, hexDigit? d with
        | some x, some y, some z, some w =>
          (parseJStringAux rest2).map
            (fun r => (Char.ofNat (4096 * x + 256 * y + 16 * z + w) :: r.1, r.2))
        | _, _, _, _ => none
      | _ => none
    | _ => none
  | c :: rest =>
    if c.toNat < 32 then none
    else (parseJStringAux rest).map (fun r => (c :: r.1, r.2))

def isDigitChar (c : Char) : Bool := '0' ≤ c ∧ c ≤ '9'

/-- JSON number literal: optional minus, integer part without leading
zeros, optional fraction, optional exponent.  Returns the lexeme. -/
def parseJNumber (cs : List Char) : Option (String × List Char) :=
  let (neg, cs1) :=
    match cs with
    | '-' :: rest => (['-'], rest)
    | _ => (([] : List Char), cs)
  let ipart : Option (List Char × List Char) :=
    match cs1 with
    | '0' :: rest =>
      match rest with
      | c :: _ => if isDigitChar c then none else some (['0'], rest)
      | [] => some (['0'], [])
    | c :: _ =>
      if isDigitChar c then some (cs1.takeWhile isDigitChar, cs1.dropWhile isDigitChar)
      else none
    | [] => none
  match ipart with
  | none => none
  | some (ds, cs2) =>
    let fpart : Option (List Char × List Char) :=
      match cs2 with
      | '.' :: rest =>
        let fd := rest.takeWhile isDigitChar
        if fd = [] then none else some ('.' :: fd, rest.dropWhile isDigitChar)
      | _ => some ([], cs2)
    match fpart with
    | none => none
    | some (fs, cs3) =>
      let epart : Option (List Char × List Char) :=
        match cs3 with
        | c :: rest =>
          if c = 'e' ∨ c = 'E' then
            let (sgn, rest1) :=
              match rest with
              | s :: rest1 => if s = '+' ∨ s = '-' then ([s], rest1) else (([] : List Char), rest)
              | [] => (([] : List Char), rest)
            let ed := rest1.takeWhile isDigitChar
            if ed = [] then none else some (c :: (sgn ++ ed), rest1.dropWhile isDigitChar)
          else some ([], cs3)
        | [] => some ([], cs3)
      match epart with
      | none => none
      | some (es, cs4) => some (String.mk (neg ++ ds ++ fs ++ es), cs4)

mutual
/-- Recursive-descent JSON value parser.  `fuel` strictly decreases on
every recursive call; the top-level entry point supplies more fuel than
any input of that length can consume. -/
def parseJValue : Nat → List Char → Except String (Json × List Char)
  | 0, _ => .error jsonSyntaxError
  | fuel + 1, cs =>
    match cs with
    | [] => .error "Unexpected end of JSON input"
    | 'n' :: 'u' :: 'l' :: 'l' :: rest => .ok (.null, rest)
    | 't' :: 'r' :: 'u' :: 'e' :: rest => .ok (.bool true, rest)
    | 'f' :: 'a' :: 'l' :: 's' :: 'e' :: rest => .ok (.bool false, rest)
    | '"' :: rest =>
      match parseJStringAux rest with
      | some (content, r) => .ok (.str (String.mk content), r)
      | none => .error jsonSyntaxError
    | c :: rest =>
      if c = '\x7b' then
        match skipWs rest with
        | '\x7d' :: r => .ok (.obj [], r)
        | cs1 => parseJObjectItems fuel cs1 []
      else if c = '[' then
        match skipWs rest with
        | ']' :: r => .ok (.arr [], r)
        | cs1 => parseJArrayItems fuel cs1 []
      else
        match parseJNumber (c :: rest) with
        | some (lex, r) => .ok (.num lex, r)
        | none => .error jsonSyntaxError

def parseJArrayItems : Nat → List Char → List Json → Except String (Json × List Char)
  | 0, _, _ => .error jsonSyntaxError
  | fuel + 1, cs, acc =>
    match parseJValue fuel cs with
    | .error e => .error e
    | .ok (v, r) =>
      match skipWs r with
      | ',' :: r2 => parseJArrayItems fuel (skipWs r2) (acc ++ [v])
      | ']' :: r2 => .ok (.arr (acc ++ [v]), r2)
      | _ => .error jsonSyntaxError

def parseJObjectItems : Nat → List Char → List (String × Json) →
    Except String (Json × List Char)
  | 0, _, _ => .error jsonSyntaxError
  | fuel + 1, cs, acc =>
    match cs with
    | '"' :: rest =>
      match parseJStringAux rest with
      | some (key, r) =>
        match skipWs r with
        | ':' :: r2 =>
          match parseJValue fuel (skipWs r2) with
          | .error e => .error e
          | .ok (v, r3) =>
            match skipWs r3 with
            | ',' :: r4 => parseJObjectItems fuel (skipWs r4) (acc ++ [(String.mk key, v)])
            | '\x7d' :: r4 => .ok (.obj (acc ++ [(String.mk key, v)]), r4)
            | _ => .error jsonSyntaxError
        | _ => .error jsonSyntaxError
      | none => .error jsonSyntaxError
    | _ => .error jsonSyntaxError
end

/-- `JSON.parse`: one JSON value surrounded by optional whitespace. -/
def jsonParseTop (s : String) : Except String Json :=
  match parseJValue (4 * (s.data.length + 1)) (skipWs s.data) with
  | .error e => .error e
  | .ok (v, rest) =>
    match skipWs rest with
    | [] => .ok v
    | _ => .error "Unexpected non-whitespace character after JSON data"

/-- `deserializeJson` (lines 499-501): percent-decode then JSON-decode,
the argument defaulting to the literal `\x7b\x7d` when absent.  No
exception handling appears in the source, so a failure of either stage is
the function's result. -/
def deserializeJson (data : Option String) : Except String Json :=
  match decodeURIComponentE (data.getD "\x7b\x7d") with
  | .error e => .error e
  | .ok s => jsonParseTop s

/-! ### Lemmas about the encoder traversal -/

theorem parseIntent_counter (n : JNode) (c : Nat) :
    (parseIntent n c).2 = c + (if isButtonNode n then 1 else 0) := by
  cases n with
  | elem t props children => cases t <;> simp [parseIntent, isButtonNode]
  | textChild s => by_cases h : s = "" <;> simp [parseIntent, isButtonNode, h]
  | nullN => rfl
  | falseN => rfl
  | undefN => rfl

theorem parseIntentList_length (ns : List JNode) (c : Nat) :
    (parseIntentList ns c).1.length = ns.length := by
  induction ns generalizing c with
  | nil => rfl
  | cons n ns ih => simp [parseIntentList, ih]

theorem parseIntentList_snd (ns : List JNode) (c : Nat) :
    (parseIntentList ns c).2 = c + countButtons ns := by
  induction ns generalizing c with
  | nil => simp [parseIntentList, countButtons]
  | cons n ns ih =>
    by_cases hb : isButtonNode n <;>
      simp [parseIntentList, ih, parseIntent_counter, countButtons, List.countP_cons, hb] <;>
      omega

theorem parseIntentList_getElem? (ns : List JNode) (c i : Nat) :
    ((parseIntentList ns c).1)[i]? =
      (ns[i]?).map (fun n => (parseIntent n (c + countButtons (ns.take i))).1) := by
  induction ns generalizing c i with
  | nil => simp [parseIntentList]
  | cons n ns ih =>
    cases i with
    | zero => simp [parseIntentList, countButtons]
    | succ i =>
      simp only [parseIntentList, List.getElem?_cons_succ, List.take_succ_cons]
      rw [ih]
      have hx : (parseIntent n c).2 + countButtons (List.take i ns) =
          c + countButtons (n :: List.take i ns) := by
        rw [parseIntent_counter]
        by_cases hb : isButtonNode n <;>
          simp [countButtons, List.countP_cons, hb] <;> omega
      rw [hx]

/-! ### Lemmas about the decoder scan -/

theorem foldl_scanTag_bstate (tags : List MetaTag) (st : ScanState) :
    (tags.foldl scanTag st).bstate = (plainButtonIndices tags).foldl bstep st.bstate := by
  induction tags generalizing st with
  | nil => rfl
  | cons t tags ih =>
    simp only [List.foldl_cons, plainButtonIndices, List.filterMap_cons]
    cases hc : classifyTag t <;>
      simp only [scanTag, hc, ih, plainButtonIndices, List.foldl_cons]

/-- The `(index, content)` pairs reaching the button map depend only on how
each tag classifies. -/
def buildButtonMap (ps : List (Nat × String)) (m : List (Nat × ButtonEntry)) :
    List (Nat × ButtonEntry) :=
  ps.foldl (fun acc ic => mapSet acc ic.1 ⟨ic.1, ic.2⟩) m

theorem foldl_scanTag_buttonMap (tags : List MetaTag) (st : ScanState) :
    (tags.foldl scanTag st).buttonMap = buildButtonMap (plainButtons tags) st.buttonMap := by
  induction tags generalizing st with
  | nil => rfl
  | cons t tags ih =>
    simp only [List.foldl_cons, plainButtons, List.filterMap_cons]
    cases hc : classifyTag t <;>
      simp only [scanTag, hc, ih, plainButtons, buildButtonMap, List.foldl_cons]

theorem scanTag_image (st : ScanState) (t : MetaTag) :
    (scanTag st t).props.fcFrameImage =
      match imgContent t with
      | some c => some c
      | none => st.props.fcFrameImage := by
  cases hp : t.property with
  | none => simp [scanTag, classifyTag, imgContent, hp]
  | some p =>
    by_cases hm : p ∈ validNamesList
    · by_cases hi : p = "fc:frame:image"
      · subst hi
        simp [scanTag, classifyTag, imgContent, hp, hm, setProp]
      · simp only [scanTag, classifyTag, imgContent, hp, if_pos hm, if_neg hi]
        unfold setProp
        split_ifs <;> simp_all
    · have hi : p ≠ "fc:frame:image" := by
        intro h; exact hm (h ▸ (by simp [validNamesList]))
      simp only [scanTag, classifyTag, imgContent, hp, if_neg hm, if_neg hi]
      cases hb : buttonMatch p with
      | none => rfl
      | some r =>
        cases r with
        | mk i osuf => cases osuf <;> rfl

theorem foldl_scanTag_image (tags : List MetaTag) (st : ScanState) :
    (tags.foldl scanTag st).props.fcFrameImage =
      match lastSome? imgContent tags with
      | some c => some c
      | none => st.props.fcFrameImage := by
  induction tags generalizing st with
  | nil => rfl
  | cons t tags ih =>
    simp only [List.foldl_cons, lastSome?]
    rw [ih, scanTag_image]
    cases lastSome? imgContent tags <;> cases hc : imgContent t <;> simp

/-! ### Lemmas about `mapSet` and `lookupKey` -/

theorem keys_mapSet_of_mem {β : Type} (m : List (Nat × β)) (k : Nat) (v : β)
    (h : m.any (fun e => e.1 == k) = true) :
    (mapSet m k v).map Prod.fst = m.map Prod.fst := by
  unfold mapSet
  rw [if_pos h, List.map_map]
  apply List.map_congr_left
  intro e _
  by_cases he : e.1 = k
  · simp [he]
  · simp [he]

theorem nodupKeys_mapSet {β : Type} (m : List (Nat × β)) (k : Nat) (v : β)
    (h : (m.map Prod.fst).Nodup) : ((mapSet m k v).map Prod.fst).Nodup := by
  by_cases ha : m.any (fun e => e.1 == k) = true
  · rw [keys_mapSet_of_mem m k v ha]; exact h
  · unfold mapSet
    rw [if_neg ha, List.map_append]
    simp only [List.map_cons, List.map_nil]
    rw [List.nodup_append]
    refine ⟨h, List.nodup_singleton k, ?_⟩
    intro a hma hk
    simp only [List.mem_singleton] at hk
    subst hk
    obtain ⟨e, hem, hek⟩ := List.mem_map.mp hma
    exact ha (List.any_eq_true.mpr ⟨e, hem, by simp [hek]⟩)

theorem find?_setAll_self {β : Type} (m : List (Nat × β)) (k : Nat) (v : β)
    (h : m.any (fun e => e.1 == k) = true) :
    (m.map (fun e => if e.1 == k then (k, v) else e)).find? (fun e => e.1 == k)
      = some (k, v) := by
  induction m with
  | nil => simp at h
  | cons e m ih =>
    by_cases he : e.1 = k
    · simp [he, List.find?_cons]
    · have ha2 : m.any (fun e => e.1 == k) = true := by
        rcases List.any_eq_true.mp h with ⟨x, hx, hxk⟩
        rcases List.mem_cons.mp hx with rfl | hx2
        · exact absurd (by simpa using hxk) he
        · exact List.any_eq_true.mpr ⟨x, hx2, hxk⟩
      simpa [he, List.find?_cons] using ih ha2

theorem find?_append_self {β : Type} (m : List (Nat × β)) (k : Nat) (v : β)
    (h : m.any (fun e => e.1 == k) = false) :
    (m ++ [(k, v)]).find? (fun e => e.1 == k) = some (k, v) := by
  induction m with
  | nil => simp
  | cons e m ih =>
    have he : ¬ e.1 = k := by
      intro hk
      have hx : (e :: m).any (fun e => e.1 == k) = true :=
        List.any_eq_true.mpr ⟨e, List.mem_cons_self e m, by simp [hk]⟩
      rw [h] at hx; cases hx
    have ha2 : m.any (fun e => e.1 == k) = false := by
      cases hm : m.any (fun e => e.1 == k) with
      | false => rfl
      | true =>
        rcases List.any_eq_true.mp hm with ⟨x, hx, hxk⟩
        have hy : (e :: m).any (fun e => e.1 == k) = true :=
          List.any_eq_true.mpr ⟨x, List.mem_cons_of_mem e hx, hxk⟩
        rw [h] at hy; cases hy
    rw [List.cons_append, List.find?_cons_of_neg _ (by simp [he])]
    exact ih ha2

theorem lookupKey_mapSet_self {β : Type} (m : List (Nat × β)) (k : Nat) (v : β) :
    lookupKey (mapSet m k v) k = some (k, v) := by
  unfold mapSet lookupKey
  by_cases ha : m.any (fun e => e.1 == k) = true
  · rw [if_pos ha]; exact find?_setAll_self m k v ha
  · rw [if_neg ha]
    refine find?_append_self m k v ?_
    revert ha
    cases m.any (fun e => e.1 == k) <;> simp

theorem find?_setAll_ne {β : Type} (m : List (Nat × β)) (k : Nat) (v : β) (k2 : Nat)
    (h : k2 ≠ k) :
    (m.map (fun e => if e.1 == k then (k, v) else e)).find? (fun e => e.1 == k2)
      = m.find? (fun e => e.1 == k2) := by
  induction m with
  | nil => rfl
  | cons e m ih =>
    simp only [List.map_cons]
    by_cases he : e.1 = k
    · have h0 : (if (e.1 == k) = true then (k, v) else e) = (k, v) := by simp [he]
      rw [h0, List.find?_cons_of_neg _ (by simp [Ne.symm h]),
        List.find?_cons_of_neg _ (by simp [he, Ne.symm h])]
      exact ih
    · have h0 : (if (e.1 == k) = true then (k, v) else e) = e := by simp [he]
      rw [h0]
      by_cases he2 : e.1 = k2
      · rw [List.find?_cons_of_pos _ (by simp [he2]),
          List.find?_cons_of_pos _ (by simp [he2])]
      · rw [List.find?_cons_of_neg _ (by simp [he2]),
          List.find?_cons_of_neg _ (by simp [he2])]
        exact ih

theorem lookupKey_mapSet_ne {β : Type} (m : List (Nat × β)) (k : Nat) (v : β) (k2 : Nat)
    (h : k2 ≠ k) : lookupKey (mapSet m k v) k2 = lookupKey m k2 := by
  unfold mapSet lookupKey
  by_cases ha : m.any (fun e => e.1 == k) = true
  · rw [if_pos ha]; exact find?_setAll_ne m k v k2 h
  · rw [if_neg ha]
    rw [List.find?_append]
    have : ([(k, v)].find? (fun e => e.1 == k2)) = none := by
      simp [List.find?_cons, Ne.symm h]
    cases hm : m.find? (fun e => e.1 == k2) <;> simp [hm, this]

theorem mem_mapSet {β : Type} (m : List (Nat × β)) (k : Nat) (v : β) (e : Nat × β)
    (h : e ∈ mapSet m k v) : e = (k, v) ∨ e ∈ m := by
  unfold mapSet at h
  by_cases ha : m.any (fun x => x.1 == k) = true
  · rw [if_pos ha] at h
    rcases List.mem_map.mp h with ⟨a, ham, hae⟩
    by_cases hk : a.1 = k
    · left; rw [← hae]; simp [hk]
    · right; rw [← hae]; simpa [hk] using ham
  · rw [if_neg ha] at h
    rcases List.mem_append.mp h with hm | hm
    · right; exact hm
    · left; simpa using hm

theorem find?_of_mem_nodupKeys {β : Type} (m : List (Nat × β)) (e : Nat × β)
    (hm : e ∈ m) (hk : (m.map Prod.fst).Nodup) : lookupKey m e.1 = some e := by
  induction m with
  | nil => cases hm
  | cons a m ih =>
    rcases List.mem_cons.mp hm with rfl | hm2
    · unfold lookupKey
      rw [List.find?_cons_of_pos _ (by simp)]
    · have hk2 : (m.map Prod.fst).Nodup := (List.nodup_cons.mp hk).2
      have hne : ¬ a.1 = e.1 := by
        intro hx
        exact (List.nodup_cons.mp hk).1 (hx ▸ List.mem_map.mpr ⟨e, hm2, rfl⟩)
      unfold lookupKey at ih ⊢
      rw [List.find?_cons_of_neg _ (by simp [hne])]
      exact ih hm2 hk2

/-! ### The button map built by a whole scan -/

theorem nodupKeys_buildButtonMap (ps : List (Nat × String)) (m : List (Nat × ButtonEntry))
    (h : (m.map Prod.fst).Nodup) :
    ((buildButtonMap ps m).map Prod.fst).Nodup := by
  induction ps generalizing m with
  | nil => exact h
  | cons ic ps ih =>
    exact ih (mapSet m ic.1 ⟨ic.1, ic.2⟩) (nodupKeys_mapSet m ic.1 ⟨ic.1, ic.2⟩ h)

theorem entry_index_buildButtonMap (ps : List (Nat × String)) (m : List (Nat × ButtonEntry))
    (h : ∀ e ∈ m, (e.2).index = e.1) :
    ∀ e ∈ buildButtonMap ps m, (e.2).index = e.1 := by
  induction ps generalizing m with
  | nil => exact h
  | cons ic ps ih =>
    refine ih (mapSet m ic.1 ⟨ic.1, ic.2⟩) ?_
    intro e he
    rcases mem_mapSet m ic.1 ⟨ic.1, ic.2⟩ e he with rfl | hm
    · rfl
    · exact h e hm

theorem lookupKey_buildButtonMap (ps : List (Nat × String)) (m : List (Nat × ButtonEntry))
    (k : Nat) :
    lookupKey (buildButtonMap ps m) k =
      match lastSome? (fun ic => if ic.1 = k then some ic else none) ps with
      | some ic => some (ic.1, ⟨ic.1, ic.2⟩)
      | none => lookupKey m k := by
  induction ps generalizing m with
  | nil => rfl
  | cons ic ps ih =>
    simp only [buildButtonMap, List.foldl_cons, lastSome?]
    rw [show List.foldl (fun acc ic => mapSet acc ic.1 ⟨ic.1, ic.2⟩)
        (mapSet m ic.1 ⟨ic.1, ic.2⟩) ps
        = buildButtonMap ps (mapSet m ic.1 ⟨ic.1, ic.2⟩) from rfl]
    rw [ih]
    cases hl : lastSome? (fun ic => if ic.1 = k then some ic else none) ps with
    | some ic2 => rfl
    | none =>
      by_cases hk : ic.1 = k
      · subst hk
        rw [lookupKey_mapSet_self]
        simp
      · rw [lookupKey_mapSet_ne m ic.1 ⟨ic.1, ic.2⟩ k (Ne.symm hk)]
        simp [hk]

theorem lastSome?_map {α β γ : Type} (f : α → Option β) (g : β → γ) (l : List α) :
    lastSome? (fun a => (f a).map g) l = (lastSome? f l).map g := by
  induction l with
  | nil => rfl
  | cons a l ih =>
    simp only [lastSome?, ih]
    cases lastSome? f l <;> simp

/-! ### The ordering state over well-ordered and misordered index streams -/

theorem foldl_bstep_range (k j : Nat) :
    List.foldl bstep ⟨j, false, false, []⟩ (List.range' (j + 1) k) =
      ⟨j + k, false, false, []⟩ := by
  induction k generalizing j with
  | zero => simp
  | succ k ih =>
    rw [List.range'_succ, List.foldl_cons]
    have hstep : bstep ⟨j, false, false, []⟩ (j + 1) = ⟨j + 1, false, false, []⟩ := by
      simp [bstep, Nat.not_succ_le_self]
    rw [hstep]
    have := ih (j + 1)
    rw [this]
    congr 1
    omega

/-! ### End-anchored matching with arbitrary leading characters -/

theorem strEndsWith_append (s pat : String) : strEndsWith (s ++ pat) pat = true := by
  unfold strEndsWith
  rw [List.isSuffixOf_iff_suffix, String.data_append]
  exact List.suffix_append s.data pat.data

theorem suffix_comparable_of_endsWith (s pat q : String)
    (h : strEndsWith (s ++ pat) q = true) :
    q.data <:+ pat.data ∨ pat.data <:+ q.data := by
  unfold strEndsWith at h
  rw [List.isSuffixOf_iff_suffix, String.data_append] at h
  exact List.suffix_or_suffix_of_suffix h (List.suffix_append s.data pat.data)

theorem strEndsWith_append_eq (s pat q : String)
    (h : q = pat ∨ (¬ q.data <:+ pat.data ∧ ¬ pat.data <:+ q.data)) :
    strEndsWith (s ++ pat) q = strEndsWith pat q := by
  rcases h with rfl | ⟨h1, h2⟩
  · rw [strEndsWith_append]
    exact (List.isSuffixOf_iff_suffix.mpr (List.suffix_refl q.data)).symm
  · have hl : strEndsWith (s ++ pat) q = false := by
      cases hval : strEndsWith (s ++ pat) q with
      | false => rfl
      | true =>
        rcases suffix_comparable_of_endsWith s pat q hval with hc | hc
        · exact absurd hc h1
        · exact absurd hc h2
    have hr : strEndsWith pat q = false := by
      cases hval : strEndsWith pat q with
      | false => rfl
      | true =>
        unfold strEndsWith at hval
        rw [List.isSuffixOf_iff_suffix] at hval
        exact absurd hval h1
    rw [hl, hr]

theorem find?_congr_list {α : Type} (p q : α → Bool) (l : List α)
    (h : ∀ a ∈ l, p a = q a) : l.find? p = l.find? q := by
  induction l with
  | nil => rfl
  | cons a l ih =>
    have ha := h a (List.mem_cons_self a l)
    cases hval : q a with
    | true =>
      have hp : p a = true := ha.trans hval
      rw [List.find?_cons_of_pos _ hp, List.find?_cons_of_pos _ hval]
    | false =>
      have hp : ¬ p a = true := by simp [ha, hval]
      rw [List.find?_cons_of_neg _ hp, List.find?_cons_of_neg _ (by simp [hval])]
      exact ih (fun x hx => h x (List.mem_cons_of_mem a hx))

theorem buttonMatch_append (s pat : String)
    (h : ∀ e ∈ buttonPatterns, e.1 = pat ∨ (¬ e.1.data <:+ pat.data ∧ ¬ pat.data <:+ e.1.data)) :
    buttonMatch (s ++ pat) = buttonMatch pat := by
  unfold buttonMatch
  rw [find?_congr_list (fun e => strEndsWith (s ++ pat) e.1)
    (fun e => strEndsWith pat e.1) buttonPatterns
    (fun e he => strEndsWith_append_eq s pat e.1 (h e he))]

theorem append_ne_of_not_endsWith (s pat name : String)
    (h : strEndsWith name pat = false) : s ++ pat ≠ name := by
  intro he
  rw [← he, strEndsWith_append s pat] at h
  cases h

theorem append_not_mem_validNames (s pat : String)
    (h : validNamesList.all (fun name => ! strEndsWith name pat) = true) :
    s ++ pat ∉ validNamesList := by
  intro hmem
  have hx := List.all_eq_true.mp h _ hmem
  rw [strEndsWith_append s pat] at hx
  cases hx

theorem classify_append (s pat : String) (c : Option String)
    (hv : validNamesList.all (fun name => ! strEndsWith name pat) = true)
    (hcomp : ∀ e ∈ buttonPatterns,
      e.1 = pat ∨ (¬ e.1.data <:+ pat.data ∧ ¬ pat.data <:+ e.1.data)) :
    classifyTag ⟨some (s ++ pat), c⟩ =
      match buttonMatch pat with
      | none => TagClass.skip
      | some (i, some _) => TagClass.action i (c.getD "")
      | some (i, none) => TagClass.plain i (c.getD "") := by
  simp only [classifyTag]
  rw [if_neg (append_not_mem_validNames s pat hv), buttonMatch_append s pat hcomp]

/-! ### Projections of `htmlToFrame` (definitional) -/

theorem scanTags_eq (tags : List MetaTag) :
    scanTags tags = tags.foldl scanTag initScanState := rfl

theorem htmlToFrame_debug_OOO (tags : List MetaTag) :
    (htmlToFrame tags).debug.buttonsAreOutOfOrder
      = ((scanTags tags).bstate.buttonsAreMissing
          || (scanTags tags).bstate.buttonsAreOutOfOrder) := rfl

theorem htmlToFrame_debug_invalid (tags : List MetaTag) :
    (htmlToFrame tags).debug.invalidButtons = (scanTags tags).bstate.invalidButtons := rfl

theorem htmlToFrame_buttons_eq (tags : List MetaTag) :
    (htmlToFrame tags).buttons
      = List.insertionSort btnLE
          ((scanTags tags).buttonMap.map (entryToButton (scanTags tags).buttonActionMap)) := rfl

theorem htmlToFrame_fallback_eq (tags : List MetaTag) :
    (htmlToFrame tags).debug.fallbackImageToUrl
      = (((scanTags tags).props.fcFrameImage.getD "") == "") := rfl

/-! ### Decoding small documents with symbolic pieces -/

theorem buttons_single_plain (t : MetaTag) (i : Nat) (c : String)
    (h : classifyTag t = .plain i c) :
    (htmlToFrame [t]).buttons = [⟨i, c, "post"⟩] := by
  rw [htmlToFrame_buttons_eq, scanTags_eq]
  simp only [List.foldl_cons, List.foldl_nil]
  rw [show scanTag initScanState t
      = { initScanState with
            bstate := bstep initScanState.bstate i,
            buttonMap := mapSet initScanState.buttonMap i ⟨i, c⟩ } from by
    unfold scanTag; rw [h]]
  rfl

theorem buttons_plain_then_action (t1 t2 : MetaTag) (i : Nat) (b c : String)
    (h1 : classifyTag t1 = .plain i b) (h2 : classifyTag t2 = .action i c) :
    (htmlToFrame [t1, t2]).buttons = [⟨i, b, c⟩] := by
  rw [htmlToFrame_buttons_eq, scanTags_eq]
  simp only [List.foldl_cons, List.foldl_nil]
  rw [show scanTag initScanState t1
      = { initScanState with
            bstate := bstep initScanState.bstate i,
            buttonMap := mapSet initScanState.buttonMap i ⟨i, b⟩ } from by
    unfold scanTag; rw [h1]]
  rw [show scanTag
      { initScanState with
          bstate := bstep initScanState.bstate i,
          buttonMap := mapSet initScanState.buttonMap i ⟨i, b⟩ } t2
      = { initScanState with
            bstate := bstep initScanState.bstate i,
            buttonMap := mapSet initScanState.buttonMap i ⟨i, b⟩,
            buttonActionMap := mapSet [] i c } from by
    unfold scanTag; rw [h2]; rfl]
  have hlk : lookupKey (mapSet ([] : List (Nat × String)) i c) i = some (i, c) :=
    lookupKey_mapSet_self [] i c
  show List.insertionSort btnLE
      ((mapSet ([] : List (Nat × ButtonEntry)) i ⟨i, b⟩).map
        (entryToButton (mapSet [] i c))) = [⟨i, b, c⟩]
  rw [show mapSet ([] : List (Nat × ButtonEntry)) i ⟨i, b⟩ = [(i, ⟨i, b⟩)] from rfl]
  simp only [List.map_cons, List.map_nil, entryToButton, hlk]
  rfl

/-! ### The claims -/

/-- C1, counterexample.  The claim says `deserializeJson` never throws and
yields the empty object on malformed input; on the concrete malformed
inputs `""` (invalid JSON after decoding) and `"%"` (bad percent-encoding)
the function instead propagates the exception of the unguarded builtin
call. -/
theorem deserializeJson_swallows_cex :
    deserializeJson (some "") = .error "Unexpected end of JSON input"
    ∧ deserializeJson (some "") ≠ .ok (Json.obj []) := by
  refine ⟨rfl, ?_⟩
  intro h
  rw [show deserializeJson (some "") = .error "Unexpected end of JSON input" from rfl] at h
  cases h

/-- C1, amended: when the `previousContext` query parameter is absent
`deserializeJson` returns the empty object, but when the parameter is
malformed (bad percent-encoding or invalid JSON) the failure is not
swallowed: the exception of `decodeURIComponent` or `JSON.parse`
propagates out of `deserializeJson`. -/
theorem deserializeJson_absent_default_error_propagation :
    deserializeJson none = .ok (Json.obj [])
    ∧ (∀ d e, decodeURIComponentE d = .error e → deserializeJson (some d) = .error e)
    ∧ (∀ d s e, decodeURIComponentE d = .ok s → jsonParseTop s = .error e →
        deserializeJson (some d) = .error e) := by
  refine ⟨rfl, ?_, ?_⟩
  · intro d e h
    unfold deserializeJson
    simp only [Option.getD_some, h]
  · intro d s e h1 h2
    unfold deserializeJson
    simp only [Option.getD_some, h1, h2]

/-- C1, witness: the three parts of the amended statement at the concrete
inputs: the absent parameter, the bad percent-encoding `"%"`, and the
percent-decodable but JSON-invalid `""`. -/
theorem deserializeJson_amended_witness :
    deserializeJson none = .ok (Json.obj [])
    ∧ deserializeJson (some "%") = .error uriMalformed
    ∧ deserializeJson (some "") = .error "Unexpected end of JSON input" :=
  ⟨deserializeJson_absent_default_error_propagation.1,
   deserializeJson_absent_default_error_propagation.2.1 "%" uriMalformed rfl,
   deserializeJson_absent_default_error_propagation.2.2 ""
     "" "Unexpected end of JSON input" rfl rfl⟩

/-- C2, counterexample.  On the document whose plain button tags are
`index 2` then `index 1`, the debug record has `invalidButtons = [2, 1]`,
not `[1]` as the claim states: the first tag already set
`buttonsAreMissing`, so its index 2 was also recorded. -/
theorem buttons_two_one_cex :
    ¬ ((htmlToFrame [⟨some "fc:frame:button:2", some "No"⟩,
          ⟨some "fc:frame:button:1", some "Yes"⟩]).debug.buttonsAreOutOfOrder = true
        ∧ (htmlToFrame [⟨some "fc:frame:button:2", some "No"⟩,
          ⟨some "fc:frame:button:1", some "Yes"⟩]).debug.invalidButtons = [1]) := by
  decide

/-- C2, amended: for every document whose plain button tags carry the
index sequence `[2, 1]`, the debug record reports
`buttonsAreOutOfOrder = true` (the tag at index 2 sets the missing flag,
which the reported flag includes) and `invalidButtons = [2, 1]`. -/
theorem buttons_two_one_amended :
    ∀ tags : List MetaTag, plainButtonIndices tags = [2, 1] →
      (htmlToFrame tags).debug.buttonsAreOutOfOrder = true
      ∧ (htmlToFrame tags).debug.invalidButtons = [2, 1] := by
  intro tags h
  have hb : (scanTags tags).bstate = ⟨1, true, false, [2, 1]⟩ := by
    rw [scanTags_eq, foldl_scanTag_bstate, h]
    rfl
  rw [htmlToFrame_debug_OOO, htmlToFrame_debug_invalid, hb]
  exact ⟨rfl, rfl⟩

/-- C2, witness: the amended statement at the concrete two-tag document. -/
theorem buttons_two_one_witness :
    (htmlToFrame [⟨some "fc:frame:button:2", some "No"⟩,
        ⟨some "fc:frame:button:1", some "Yes"⟩]).debug.buttonsAreOutOfOrder = true
    ∧ (htmlToFrame [⟨some "fc:frame:button:2", some "No"⟩,
        ⟨some "fc:frame:button:1", some "Yes"⟩]).debug.invalidButtons = [2, 1] :=
  buttons_two_one_amended _ (by decide)

/-- C3: for every `k` with `1 ≤ k ≤ 4` and every document whose plain
button tags carry, in document order, exactly the gap-free increasing
indices `1, …, k`, the decoder reports `buttonsAreOutOfOrder = false` and
`invalidButtons = []`. -/
theorem wellordered_buttons_clean :
    ∀ (tags : List MetaTag) (k : Nat), 1 ≤ k → k ≤ 4 →
      plainButtonIndices tags = List.range' 1 k →
      (htmlToFrame tags).debug.buttonsAreOutOfOrder = false
      ∧ (htmlToFrame tags).debug.invalidButtons = [] := by
  intro tags k _ _ h
  have hb : (scanTags tags).bstate = ⟨k, false, false, []⟩ := by
    rw [scanTags_eq, foldl_scanTag_bstate, h]
    have hr := foldl_bstep_range k 0
    simpa using hr
  rw [htmlToFrame_debug_OOO, htmlToFrame_debug_invalid, hb]
  exact ⟨rfl, rfl⟩

/-- C3, witness: the statement at `k = 2` on a concrete document that also
contains unrelated tags. -/
theorem wellordered_buttons_clean_witness :
    (htmlToFrame [⟨some "fc:frame", some "vNext"⟩,
        ⟨some "fc:frame:button:1", some "Yes"⟩,
        ⟨some "fc:frame:button:2", some "No"⟩]).debug.buttonsAreOutOfOrder = false
    ∧ (htmlToFrame [⟨some "fc:frame", some "vNext"⟩,
        ⟨some "fc:frame:button:1", some "Yes"⟩,
        ⟨some "fc:frame:button:2", some "No"⟩]).debug.invalidButtons = [] :=
  wellordered_buttons_clean _ 2 (by decide) (by decide) (by decide)

/-- C4: encoding the intent tree of two button nodes (no action tags) and
decoding the resulting meta tags round-trips to the buttons
`[⟨1, "Apples", "post"⟩, ⟨2, "Oranges", "post"⟩]`. -/
theorem roundtrip_two_buttons :
    (htmlToFrame (encodedTags (parseIntents (.many
        [.elem .buttonT {} [.textChild "Apples"],
         .elem .buttonT {} [.textChild "Oranges"]])))).buttons
      = [⟨1, "Apples", "post"⟩, ⟨2, "Oranges", "post"⟩] := rfl

/-- C5: in the encoder's traversal, the `i`-th node of a top-level intent
array, when `button`-tagged, is rendered with index
`1 + (number of button-tagged nodes before position i)` — the n-th
button-tagged node gets index n, counted from 1 with one shared counter —
while a `text-input`-tagged node is rendered without consuming an index and
leaves the counter unchanged; the counter after the whole list equals the
start value plus the number of button-tagged nodes; and a container node's
children are traversed by the same list traversal with the same counter
starting at 1, so grouping does not change the assignment. -/
theorem button_indices_by_position :
    (∀ (ns : List JNode) (i : Nat) (props : CallProps) (children : List JNode),
        ns[i]? = some (.elem .buttonT props children) →
        (parsedNodes (parseIntents (.many ns)))[i]?
          = some (Button { props with index := some (1 + countButtons (ns.take i)) } children))
    ∧ (∀ (props : CallProps) (children : List JNode) (c : Nat),
        parseIntent (.elem .textInputT props children) c = (TextInput props, c))
    ∧ (∀ (ns : List JNode) (c : Nat), (parseIntentList ns c).2 = c + countButtons ns)
    ∧ (∀ (t : JTag) (props : CallProps) (c0 : JNode) (cs : List JNode),
        isObjChild c0 = true →
        parseIntents (.one (.elem t props (c0 :: cs)))
          = .one (.elem t props (parseIntentList (c0 :: cs) 1).1)) := by
  refine ⟨?_, fun props children c => rfl, parseIntentList_snd, ?_⟩
  · intro ns i props children h
    show ((parseIntentList ns 1).1)[i]? = _
    rw [parseIntentList_getElem?, h]
    rfl
  · intro t props c0 cs h
    simp [parseIntents, h]

/-- C5, witness: in the array `[button, text-input, button]` the node at
position 2 is the second button and is rendered with index 2. -/
theorem button_indices_by_position_witness :
    (parsedNodes (parseIntents (.many
        [JNode.elem .buttonT {} [], JNode.elem .textInputT {} [],
         JNode.elem .buttonT {} []])))[2]?
      = some (Button { index := some 2 } []) :=
  button_indices_by_position.1
    [JNode.elem .buttonT {} [], JNode.elem .textInputT {} [],
     JNode.elem .buttonT {} []] 2 {} [] rfl

/-- C6: for every document, the decoded `buttons` sequence is strictly
increasing in `index`, and every decoded button carries the title of the
last plain button tag with its index in document order (map semantics:
duplicate indices collapse to the last-seen tag). -/
theorem buttons_sorted_lastwins :
    ∀ tags : List MetaTag,
      List.Pairwise (fun a b : FrameButton => a.index < b.index) (htmlToFrame tags).buttons
      ∧ ∀ b ∈ (htmlToFrame tags).buttons,
          lastSome? (fun ic => if ic.1 = b.index then some ic.2 else none) (plainButtons tags)
            = some b.title := by
  intro tags
  have hmap : (scanTags tags).buttonMap = buildButtonMap (plainButtons tags) [] := by
    rw [scanTags_eq, foldl_scanTag_buttonMap]
    rfl
  have hnodup : (((scanTags tags).buttonMap).map Prod.fst).Nodup := by
    rw [hmap]
    exact nodupKeys_buildButtonMap _ [] (by simp)
  have hidx : ∀ e ∈ (scanTags tags).buttonMap, (e.2).index = e.1 := by
    rw [hmap]
    exact entry_index_buildButtonMap _ [] (by intro e he; cases he)
  constructor
  · rw [htmlToFrame_buttons_eq]
    have hle : List.Pairwise btnLE
        (List.insertionSort btnLE
          ((scanTags tags).buttonMap.map (entryToButton (scanTags tags).buttonActionMap))) :=
      List.sorted_insertionSort btnLE _
    have hperm := List.perm_insertionSort btnLE
      ((scanTags tags).buttonMap.map (entryToButton (scanTags tags).buttonActionMap))
    have hne_raw : List.Pairwise (fun a b : FrameButton => a.index ≠ b.index)
        ((scanTags tags).buttonMap.map (entryToButton (scanTags tags).buttonActionMap)) := by
      have hkeys : List.Pairwise (fun x y : Nat => x ≠ y)
          ((scanTags tags).buttonMap.map Prod.fst) := hnodup
      rw [List.pairwise_map] at hkeys
      rw [List.pairwise_map]
      refine hkeys.imp_of_mem ?_
      intro a b ha hb hne
      show (entryToButton (scanTags tags).buttonActionMap a).index
        ≠ (entryToButton (scanTags tags).buttonActionMap b).index
      have h1 : (entryToButton (scanTags tags).buttonActionMap a).index = a.1 := hidx a ha
      have h2 : (entryToButton (scanTags tags).buttonActionMap b).index = b.1 := hidx b hb
      rw [h1, h2]
      exact hne
    have hne := (hperm.pairwise_iff (fun hxy he => hxy he.symm)).mpr hne_raw
    exact hle.imp₂ (fun a b hab hne2 => Nat.lt_of_le_of_ne hab hne2) hne
  · intro b hb
    rw [htmlToFrame_buttons_eq, List.mem_insertionSort] at hb
    obtain ⟨e, he, rfl⟩ := List.mem_map.mp hb
    have hlk : lookupKey (scanTags tags).buttonMap e.1 = some e :=
      find?_of_mem_nodupKeys _ e he hnodup
    rw [hmap, lookupKey_buildButtonMap] at hlk
    cases hl : lastSome? (fun ic => if ic.1 = e.1 then some ic else none) (plainButtons tags) with
    | none =>
      rw [hl] at hlk
      exact Option.noConfusion hlk
    | some ic =>
      rw [hl] at hlk
      have he2 : e = (ic.1, ⟨ic.1, ic.2⟩) := (Option.some.injEq _ _ ▸ hlk).symm
      subst he2
      show lastSome? (fun p => if p.1 = ic.1 then some p.2 else none) (plainButtons tags)
        = some ic.2
      have hmapped := lastSome?_map (fun p : Nat × String => if p.1 = ic.1 then some p else none)
        (fun x : Nat × String => x.2) (plainButtons tags)
      have hfun : (fun p : Nat × String => (if p.1 = ic.1 then some p else none).map
            (fun x : Nat × String => x.2))
          = (fun p : Nat × String => if p.1 = ic.1 then some p.2 else none) := by
        funext p
        split <;> rfl
      rw [hfun] at hmapped
      rw [hmapped, hl]
      rfl

/-- C6, witness: on a document with two tags for index 1 (titles `A` then
`B`), the decoded button takes the later title `B`. -/
theorem buttons_sorted_lastwins_witness :
    lastSome? (fun ic => if ic.1 = (1 : Nat) then some ic.2 else none)
      (plainButtons [⟨some "fc:frame:button:1", some "A"⟩,
        ⟨some "fc:frame:button:1", some "B"⟩]) = some "B" :=
  (buttons_sorted_lastwins [⟨some "fc:frame:button:1", some "A"⟩,
    ⟨some "fc:frame:button:1", some "B"⟩]).2 ⟨1, "B", "post"⟩ (by decide)

/-- C7 (code bug): a plain button tag whose `content` attribute is the
empty string decodes to a button whose title is the empty string, not the
stringified index `"2"` the spec describes: line 540 already replaced the
missing-or-present content by a (possibly empty) string, so the
`content ?? index` fallback of line 560 can never fire. -/
theorem empty_content_keeps_empty_title :
    (htmlToFrame [⟨some "fc:frame:button:2", some ""⟩]).buttons
      = [⟨2, "", "post"⟩] := by decide

/-- C8, counterexample: a document containing an `fc:frame:image` tag with
empty content has the tag present, yet `fallbackImageToUrl` is `true`,
refuting the claimed equivalence with tag absence. -/
theorem fallbackImage_presence_cex :
    ¬ (((htmlToFrame [⟨some "fc:frame:image", some ""⟩]).debug.fallbackImageToUrl = true)
        ↔ (hasImageTag [⟨some "fc:frame:image", some ""⟩] = false)) := by
  decide

/-- C8, amended: `fallbackImageToUrl` is `true` exactly when the stored
`fc:frame:image` value is the empty string — no such tag occurs, or the
last one has empty (or absent) content.  The right-hand side never
consults `og:image`, so the flag is independent of it. -/
theorem fallbackImage_iff_empty_stored :
    ∀ tags : List MetaTag,
      (htmlToFrame tags).debug.fallbackImageToUrl = true
        ↔ (lastSome? imgContent tags).getD "" = "" := by
  intro tags
  rw [htmlToFrame_fallback_eq]
  have himg : (scanTags tags).props.fcFrameImage =
      match lastSome? imgContent tags with
      | some c => some c
      | none => none := by
    rw [scanTags_eq, foldl_scanTag_image]
    cases lastSome? imgContent tags <;> rfl
  rw [himg]
  cases lastSome? imgContent tags with
  | none => simp
  | some c => simp [beq_iff_eq]

/-- C8, witness: a document with only an `og:image` tag still reports
`fallbackImageToUrl = true`. -/
theorem fallbackImage_iff_empty_stored_witness :
    (htmlToFrame [⟨some "og:image", some "https://a/img.png"⟩]).debug.fallbackImageToUrl
      = true :=
  (fallbackImage_iff_empty_stored [⟨some "og:image", some "https://a/img.png"⟩]).mpr
    (by decide)

/-- C9, counterexample: a node whose tag is a function component without a
capability tag is not passed through unmodified — the encoder calls the
function with the empty props object, so the node's own props and children
are dropped.  Here the component renders `undefined`, which differs from
the input node. -/
theorem passthrough_cex :
    (parseIntent (.elem (.fnT (fun _ => .undefN)) { value := some "v" } []) 1).1
      ≠ .elem (.fnT (fun _ => .undefN)) { value := some "v" } [] := by
  intro h
  exact JNode.noConfusion h

/-- C9, amended: a node whose tag is not a function (a string-tagged
intrinsic element) is passed through unmodified with its props and
children intact; a node whose tag is a function lacking a recognized
capability tag is instead invoked with the empty props object, its
original props and children not forwarded. -/
theorem passthrough_amended :
    (∀ (name : String) (props : CallProps) (children : List JNode) (c : Nat),
        parseIntent (.elem (.strT name) props children) c
          = (.elem (.strT name) props children, c))
    ∧ (∀ (f : CallProps → JNode) (props : CallProps) (children : List JNode) (c : Nat),
        parseIntent (.elem (.fnT f) props children) c = (f {}, c)) :=
  ⟨fun _ _ _ _ => rfl, fun _ _ _ _ => rfl⟩

/-- C9, witness: both parts of the amended statement at concrete nodes. -/
theorem passthrough_amended_witness :
    parseIntent (.elem (.strT "div") { value := some "v" } []) 3
      = (.elem (.strT "div") { value := some "v" } [], 3)
    ∧ parseIntent (.elem (.fnT (fun _ => .undefN)) { value := some "v" } []) 3
      = (.undefN, 3) :=
  ⟨passthrough_amended.1 "div" { value := some "v" } [] 3,
   passthrough_amended.2 (fun _ => .undefN) { value := some "v" } [] 3⟩

/-- C10: the button pattern is anchored only at the end of the property
string, so for each index `n` in 1..4 and an arbitrary extra leading
string `s`, a meta tag whose property is `s` followed by
`fc:frame:button:n` is processed as the plain button tag of index `n`
(decoding to a button with that index, the tag's content and default type
`post`), and a tag whose property is `s` followed by
`fc:frame:button:n:action` or `fc:frame:button:n:target` is processed as
the action/target tag of index `n` (its content becoming button `n`'s
type). -/
theorem unanchored_button_pattern :
    ∀ (s c : String) (n : Nat), n = 1 ∨ n = 2 ∨ n = 3 ∨ n = 4 →
      (htmlToFrame [⟨some (s ++ ("fc:frame:button:" ++ toString n)), some c⟩]).buttons
          = [⟨n, c, "post"⟩]
      ∧ (htmlToFrame [⟨some ("fc:frame:button:" ++ toString n), some "B"⟩,
          ⟨some (s ++ ("fc:frame:button:" ++ toString n ++ ":action")), some c⟩]).buttons
          = [⟨n, "B", c⟩]
      ∧ (htmlToFrame [⟨some ("fc:frame:button:" ++ toString n), some "B"⟩,
          ⟨some (s ++ ("fc:frame:button:" ++ toString n ++ ":target")), some c⟩]).buttons
          = [⟨n, "B", c⟩] := by
  intro s c n hn
  rcases hn with rfl | rfl | rfl | rfl
  · refine ⟨?_, ?_, ?_⟩
    · exact buttons_single_plain _ 1 c (by
        rw [show ("fc:frame:button:" ++ toString (1 : Nat)) = "fc:frame:button:1" from rfl,
          classify_append s "fc:frame:button:1" (some c) (by decide) (by decide)]
        rfl)
    · exact buttons_plain_then_action _ _ 1 "B" c (by decide) (by
        rw [show ("fc:frame:button:" ++ toString (1 : Nat) ++ ":action")
            = "fc:frame:button:1:action" from rfl,
          classify_append s "fc:frame:button:1:action" (some c) (by decide) (by decide)]
        rfl)
    · exact buttons_plain_then_action _ _ 1 "B" c (by decide) (by
        rw [show ("fc:frame:button:" ++ toString (1 : Nat) ++ ":target")
            = "fc:frame:button:1:target" from rfl,
          classify_append s "fc:frame:button:1:target" (some c) (by decide) (by decide)]
        rfl)
  · refine ⟨?_, ?_, ?_⟩
    · exact buttons_single_plain _ 2 c (by
        rw [show ("fc:frame:button:" ++ toString (2 : Nat)) = "fc:frame:button:2" from rfl,
          classify_append s "fc:frame:button:2" (some c) (by decide) (by decide)]
        rfl)
    · exact buttons_plain_then_action _ _ 2 "B" c (by decide) (by
        rw [show ("fc:frame:button:" ++ toString (2 : Nat) ++ ":action")
            = "fc:frame:button:2:action" from rfl,
          classify_append s "fc:frame:button:2:action" (some c) (by decide) (by decide)]
        rfl)
    · exact buttons_plain_then_action _ _ 2 "B" c (by decide) (by
        rw [show ("fc:frame:button:" ++ toString (2 : Nat) ++ ":target")
            = "fc:frame:button:2:target" from rfl,
          classify_append s "fc:frame:button:2:target" (some c) (by decide) (by decide)]
        rfl)
  · refine ⟨?_, ?_, ?_⟩
    · exact buttons_single_plain _ 3 c (by
        rw [show ("fc:frame:button:" ++ toString (3 : Nat)) = "fc:frame:button:3" from rfl,
          classify_append s "fc:frame:button:3" (some c) (by decide) (by decide)]
        rfl)
    · exact buttons_plain_then_action _ _ 3 "B" c (by decide) (by
        rw [show ("fc:frame:button:" ++ toString (3 : Nat) ++ ":action")
            = "fc:frame:button:3:action" from rfl,
          classify_append s "fc:frame:button:3:action" (some c) (by decide) (by decide)]
        rfl)
    · exact buttons_plain_then_action _ _ 3 "B" c (by decide) (by
        rw [show ("fc:frame:button:" ++ toString (3 : Nat) ++ ":target")
            = "fc:frame:button:3:target" from rfl,
          classify_append s "fc:frame:button:3:target" (some c) (by decide) (by decide)]
        rfl)
  · refine ⟨?_, ?_, ?_⟩
    · exact buttons_single_plain _ 4 c (by
        rw [show ("fc:frame:button:" ++ toString (4 : Nat)) = "fc:frame:button:4" from rfl,
          classify_append s "fc:frame:button:4" (some c) (by decide) (by decide)]
        rfl)
    · exact buttons_plain_then_action _ _ 4 "B" c (by decide) (by
        rw [show ("fc:frame:button:" ++ toString (4 : Nat) ++ ":action")
            = "fc:frame:button:4:action" from rfl,
          classify_append s "fc:frame:button:4:action" (some c) (by decide) (by decide)]
        rfl)
    · exact buttons_plain_then_action _ _ 4 "B" c (by decide) (by
        rw [show ("fc:frame:button:" ++ toString (4 : Nat) ++ ":target")
            = "fc:frame:button:4:target" from rfl,
          classify_append s "fc:frame:button:4:target" (some c) (by decide) (by decide)]
        rfl)

/-- C10, witness: the property `xfc:frame:button:1` named by the claim is
decoded as button 1. -/
theorem unanchored_button_pattern_witness :
    (htmlToFrame [⟨some ("x" ++ ("fc:frame:button:" ++ toString (1 : Nat))),
        some "T"⟩]).buttons = [⟨1, "T", "post"⟩] :=
  (unanchored_button_pattern "x" "T" 1 (Or.inl rfl)).1

end Frog
